import Mathlib

/-!
Verification of the package-dependency resolution and native-dependency
detection pipeline in `src/snowflake/snowpark/_internal/packaging_utils.py`.

The Python functions are embedded shallowly:

* `pkg_resources.Requirement` becomes a structure holding a name and a list of
  `(operator, version)` specifiers.
* The Anaconda catalog (`valid_packages`, a Python `dict`) becomes an
  association list queried by `lookupDict`.
* The mutable `native_packages` set becomes a `Finset String` threaded through
  the recursion; the function returns the final set.
* Filesystem-reading functions (`get_downloaded_packages`,
  `detect_native_dependencies`) take the relevant directory listings and file
  contents as explicit arguments; the string/path primitives they rely on
  (`str.split`, `os.path.split`, `os.path.join`, `os.path.normpath`, glob
  patterns) are modelled over `List Char` so that everything evaluates.
* Python exceptions become an `Except` result; `add_snowpark_package`'s
  `try/except` blocks are explicit case analyses.
-/

/-- `pkg_resources.Requirement`: a package name plus a list of
`(operator, version)` specifiers (`specs`). -/
structure Requirement where
  name : String
  specs : List (String × String)
  deriving DecidableEq, Repr

/-- Splitting a character list at every occurrence of the two-character
separator `==` (the executable core of Python's `s.split("==")`). -/
def splitEqEq : List Char → List Char → List (List Char)
  | '=' :: '=' :: rest, acc => acc.reverse :: splitEqEq rest []
  | c :: rest, acc => splitEqEq rest (c :: acc)
  | [], acc => [acc.reverse]

/-- Python `s.split("==")`. -/
def splitOnEqEq (s : String) : List String :=
  (splitEqEq s.data []).map String.mk

/-- `pkg_resources.Requirement.parse`, for the two input shapes produced by
this module: a bare package name, or `name==version` (as produced by
`get_package_name_from_metadata`). -/
def Requirement.parse (s : String) : Requirement :=
  match splitOnEqEq s with
  | [] => { name := s, specs := [] }
  | [n] => { name := n, specs := [] }
  | n :: v :: _ => { name := n, specs := [("==", v)] }

/-- `package.specs[0][1] if package.specs else None`
(packaging_utils.py line 134). -/
def Requirement.versionReq (p : Requirement) : Option String :=
  p.specs.head?.map Prod.snd

/-- Python `dict` lookup `m[k]` / `k in m`, for a dictionary modelled as an
association list. -/
def lookupDict {α : Type} : List (String × α) → String → Option α
  | [], _ => none
  | (k', v) :: rest, k => if k' = k then some v else lookupDict rest k

/-- The result of `identify_supported_packages`: the three returned lists plus
the final state of the (mutated in place) `native_packages` set. -/
structure ReconcileResult where
  supported : List Requirement
  dropped : List Requirement
  newDeps : List Requirement
  native : Finset String
  deriving DecidableEq

/-- One iteration of the loop body of `identify_supported_packages`
(packaging_utils.py lines 133-151) for a package whose name was found in
`valid_packages` with version list `versions`: classify `package` against the
`native` set as it stands when the package is processed, and prepend its
contribution to the result `tail` of the remaining iterations. -/
def identifyCons (package : Requirement) (versions : List String)
    (native : Finset String) (tail : ReconcileResult) : ReconcileResult :=
  match package.versionReq with
  | none => { tail with supported := package :: tail.supported }
  | some v =>
    if v ∈ versions then
      { tail with supported := package :: tail.supported }
    else if package.name ∈ native then
      { tail with dropped := package :: tail.dropped,
                  newDeps := Requirement.parse package.name :: tail.newDeps }
    else tail

/-- `identify_supported_packages(packages, valid_packages, native_packages)`
(packaging_utils.py lines 106-152).  A package whose name is absent from
`valid_packages` contributes nothing; a package whose name is present is
classified by `identifyCons`, and its name is removed from the native set
before the remaining packages are processed (lines 150-151; `Finset.erase` is
the identity when the name is absent, matching the guarded `remove`). -/
def identify_supported_packages :
    List Requirement → List (String × List String) → Finset String →
    ReconcileResult
  | [], _, native => { supported := [], dropped := [], newDeps := [], native := native }
  | package :: rest, valid, native =>
    match lookupDict valid package.name with
    | none => identify_supported_packages rest valid native
    | some versions =>
      identifyCons package versions native
        (identify_supported_packages rest valid (native.erase package.name))

/-- A requested version constraint satisfiable from the catalog's version list
`versions`: either no constraint was given, or the pinned version is
available. -/
def versionOk (p : Requirement) (versions : List String) : Prop :=
  p.versionReq = none ∨ ∃ v, p.versionReq = some v ∧ v ∈ versions

theorem identifyCons_native (p : Requirement) (vs : List String) (n : Finset String)
    (t : ReconcileResult) : (identifyCons p vs n t).native = t.native := by
  cases hv : p.versionReq with
  | none => simp [identifyCons, hv]
  | some v =>
    simp only [identifyCons, hv]
    split_ifs <;> rfl

theorem mem_supported_identifyCons {q p : Requirement} {vs : List String}
    {n : Finset String} {t : ReconcileResult} :
    q ∈ (identifyCons p vs n t).supported ↔
      (q = p ∧ versionOk p vs) ∨ q ∈ t.supported := by
  cases hv : p.versionReq with
  | none => simp [identifyCons, hv, versionOk]
  | some v =>
    by_cases hmem : v ∈ vs
    · simp [identifyCons, hv, versionOk, hmem]
    · by_cases hn : p.name ∈ n <;>
        simp [identifyCons, hv, versionOk, hmem, hn]

theorem mem_dropped_identifyCons {q p : Requirement} {vs : List String}
    {n : Finset String} {t : ReconcileResult} :
    q ∈ (identifyCons p vs n t).dropped ↔
      (q = p ∧ p.name ∈ n ∧ ∃ v, p.versionReq = some v ∧ v ∉ vs) ∨
      q ∈ t.dropped := by
  cases hv : p.versionReq with
  | none => simp [identifyCons, hv]
  | some v =>
    by_cases hmem : v ∈ vs
    · simp [identifyCons, hv, hmem]
    · by_cases hn : p.name ∈ n <;>
        simp [identifyCons, hv, hmem, hn]

theorem mem_newDeps_identifyCons {q p : Requirement} {vs : List String}
    {n : Finset String} {t : ReconcileResult} :
    q ∈ (identifyCons p vs n t).newDeps ↔
      (q = Requirement.parse p.name ∧ p.name ∈ n ∧
        ∃ v, p.versionReq = some v ∧ v ∉ vs) ∨
      q ∈ t.newDeps := by
  cases hv : p.versionReq with
  | none => simp [identifyCons, hv]
  | some v =>
    by_cases hmem : v ∈ vs
    · simp [identifyCons, hv, hmem]
    · by_cases hn : p.name ∈ n <;>
        simp [identifyCons, hv, hmem, hn]

theorem identifyCons_unchanged_of_versionOk {p : Requirement} {vs : List String}
    {n : Finset String} {t : ReconcileResult} (h : versionOk p vs) :
    (identifyCons p vs n t).dropped = t.dropped ∧
    (identifyCons p vs n t).newDeps = t.newDeps := by
  rcases h with h | ⟨v, hv, hmem⟩
  · simp [identifyCons, h]
  · simp [identifyCons, hv, hmem]

theorem mem_supported_identify {ps : List Requirement}
    {valid : List (String × List String)} {n : Finset String} {q : Requirement} :
    q ∈ (identify_supported_packages ps valid n).supported →
    q ∈ ps ∧ ∃ vs, lookupDict valid q.name = some vs ∧ versionOk q vs := by
  induction ps generalizing n with
  | nil => intro h; simp [identify_supported_packages] at h
  | cons p rest ih =>
    intro h
    simp only [identify_supported_packages] at h
    cases hl : lookupDict valid p.name with
    | none =>
      rw [hl] at h
      obtain ⟨hmem, hvs⟩ := ih h
      exact ⟨List.mem_cons_of_mem _ hmem, hvs⟩
    | some vs =>
      rw [hl, mem_supported_identifyCons] at h
      rcases h with ⟨rfl, hok⟩ | h
      · exact ⟨List.mem_cons_self _ _, vs, hl, hok⟩
      · obtain ⟨hmem, hvs⟩ := ih h
        exact ⟨List.mem_cons_of_mem _ hmem, hvs⟩

theorem mem_dropped_identify {ps : List Requirement}
    {valid : List (String × List String)} {n : Finset String} {q : Requirement} :
    q ∈ (identify_supported_packages ps valid n).dropped →
    q ∈ ps ∧ q.name ∈ n ∧
      ∃ vs v, lookupDict valid q.name = some vs ∧ q.versionReq = some v ∧ v ∉ vs := by
  induction ps generalizing n with
  | nil => intro h; simp [identify_supported_packages] at h
  | cons p rest ih =>
    intro h
    simp only [identify_supported_packages] at h
    cases hl : lookupDict valid p.name with
    | none =>
      rw [hl] at h
      obtain ⟨h1, h2, h3⟩ := ih h
      exact ⟨List.mem_cons_of_mem _ h1, h2, h3⟩
    | some vs =>
      rw [hl, mem_dropped_identifyCons] at h
      rcases h with ⟨rfl, hn, v, hv, hnv⟩ | h
      · exact ⟨List.mem_cons_self _ _, hn, vs, v, hl, hv, hnv⟩
      · obtain ⟨h1, h2, h3⟩ := ih h
        exact ⟨List.mem_cons_of_mem _ h1, Finset.mem_of_mem_erase h2, h3⟩

theorem mem_newDeps_identify {ps : List Requirement}
    {valid : List (String × List String)} {n : Finset String} {q : Requirement} :
    q ∈ (identify_supported_packages ps valid n).newDeps →
    ∃ p, p ∈ ps ∧ q = Requirement.parse p.name ∧
      ∃ vs, lookupDict valid p.name = some vs := by
  induction ps generalizing n with
  | nil => intro h; simp [identify_supported_packages] at h
  | cons p rest ih =>
    intro h
    simp only [identify_supported_packages] at h
    cases hl : lookupDict valid p.name with
    | none =>
      rw [hl] at h
      obtain ⟨p', h1, h2⟩ := ih h
      exact ⟨p', List.mem_cons_of_mem _ h1, h2⟩
    | some vs =>
      rw [hl, mem_newDeps_identifyCons] at h
      rcases h with ⟨rfl, hn, hex⟩ | h
      · exact ⟨p, List.mem_cons_self _ _, rfl, vs, hl⟩
      · obtain ⟨p', h1, h2⟩ := ih h
        exact ⟨p', List.mem_cons_of_mem _ h1, h2⟩

theorem native_identify_char {ps : List Requirement}
    {valid : List (String × List String)} {n : Finset String} {x : String} :
    x ∈ (identify_supported_packages ps valid n).native ↔
      x ∈ n ∧ ∀ p ∈ ps, p.name = x → lookupDict valid x = none := by
  induction ps generalizing n with
  | nil => simp [identify_supported_packages]
  | cons p rest ih =>
    simp only [identify_supported_packages]
    cases hl : lookupDict valid p.name with
    | none =>
      rw [ih]
      constructor
      · rintro ⟨hx, hrest⟩
        refine ⟨hx, fun q hq hname => ?_⟩
        rcases List.mem_cons.mp hq with rfl | hq'
        · rw [← hname]; exact hl
        · exact hrest q hq' hname
      · rintro ⟨hx, hall⟩
        exact ⟨hx, fun q hq hname => hall q (List.mem_cons_of_mem _ hq) hname⟩
    | some vs =>
      rw [identifyCons_native, ih]
      constructor
      · rintro ⟨hx, hrest⟩
        have hxn := Finset.mem_of_mem_erase hx
        have hxe : x ≠ p.name := Finset.ne_of_mem_erase hx
        refine ⟨hxn, fun q hq hname => ?_⟩
        rcases List.mem_cons.mp hq with rfl | hq'
        · exact absurd hname.symm hxe
        · exact hrest q hq' hname
      · rintro ⟨hx, hall⟩
        have hne : p.name ≠ x := by
          intro hEq
          have hnone := hall p (List.mem_cons_self _ _) hEq
          rw [hEq] at hl
          rw [hnone] at hl
          cases hl
        exact ⟨Finset.mem_erase.mpr ⟨fun hEq => hne hEq.symm, hx⟩,
               fun q hq hname => hall q (List.mem_cons_of_mem _ hq) hname⟩

theorem identify_nodrop {ps : List Requirement}
    {valid : List (String × List String)} {n : Finset String}
    (h : ∀ p ∈ ps, ∀ vs, lookupDict valid p.name = some vs → versionOk p vs) :
    (identify_supported_packages ps valid n).dropped = [] ∧
    (identify_supported_packages ps valid n).newDeps = [] := by
  induction ps generalizing n with
  | nil => simp [identify_supported_packages]
  | cons p rest ih =>
    simp only [identify_supported_packages]
    cases hl : lookupDict valid p.name with
    | none => exact ih (fun q hq => h q (List.mem_cons_of_mem _ hq))
    | some vs =>
      have hok := h p (List.mem_cons_self _ _) vs hl
      obtain ⟨hd, hnew⟩ := identifyCons_unchanged_of_versionOk
        (n := n) (t := identify_supported_packages rest valid (n.erase p.name)) hok
      rw [hd, hnew]
      exact ih (fun q hq => h q (List.mem_cons_of_mem _ hq))

theorem supported_complete {ps : List Requirement}
    {valid : List (String × List String)} {n : Finset String}
    {p : Requirement} {vs : List String} (hp : p ∈ ps)
    (hl : lookupDict valid p.name = some vs) (hok : versionOk p vs) :
    p ∈ (identify_supported_packages ps valid n).supported := by
  induction ps generalizing n with
  | nil => cases hp
  | cons q rest ih =>
    simp only [identify_supported_packages]
    rcases List.mem_cons.mp hp with rfl | hp'
    · rw [hl, mem_supported_identifyCons]
      exact Or.inl ⟨rfl, hok⟩
    · cases hl2 : lookupDict valid q.name with
      | none => exact ih hp'
      | some vs2 =>
        rw [mem_supported_identifyCons]
        exact Or.inr (ih hp')

theorem dropped_complete {p : Requirement} {valid : List (String × List String)}
    {vs : List String} {v : String} (hl : lookupDict valid p.name = some vs)
    (hv : p.versionReq = some v) (hnv : v ∉ vs) :
    ∀ (ps : List Requirement) (n : Finset String), p ∈ ps →
      (∀ q ∈ ps, q.name = p.name → q = p) → p.name ∈ n →
      p ∈ (identify_supported_packages ps valid n).dropped ∧
      Requirement.parse p.name ∈ (identify_supported_packages ps valid n).newDeps := by
  intro ps
  induction ps with
  | nil => intro n h; cases h
  | cons q rest ih =>
    intro n hp huniq hn
    simp only [identify_supported_packages]
    by_cases hqp : q = p
    · subst hqp
      rw [hl]
      constructor
      · rw [mem_dropped_identifyCons]
        exact Or.inl ⟨rfl, hn, v, hv, hnv⟩
      · rw [mem_newDeps_identifyCons]
        exact Or.inl ⟨rfl, hn, v, hv, hnv⟩
    · have hp' : p ∈ rest := by
        rcases List.mem_cons.mp hp with rfl | hp'
        · exact absurd rfl hqp
        · exact hp'
      have hqname : q.name ≠ p.name :=
        fun hEq => hqp (huniq q (List.mem_cons_self _ _) hEq)
      have huniq' : ∀ r ∈ rest, r.name = p.name → r = p :=
        fun r hr hrn => huniq r (List.mem_cons_of_mem _ hr) hrn
      cases hl2 : lookupDict valid q.name with
      | none => exact ih n hp' huniq' hn
      | some vs2 =>
        have hmem : p.name ∈ n.erase q.name :=
          Finset.mem_erase.mpr ⟨fun hEq => hqname hEq.symm, hn⟩
        obtain ⟨htd, htn⟩ := ih (n.erase q.name) hp' huniq' hmem
        constructor
        · rw [mem_dropped_identifyCons]
          exact Or.inr htd
        · rw [mem_newDeps_identifyCons]
          exact Or.inr htn

/-- C3: in any call to `identify_supported_packages`, a requested package whose
name is in the catalog, whose pinned version is not in the catalog's version
list, and whose name is in the native-package set (the name being requested by
no other requirement, and being a plain name) lands in the dropped list, with a
same-named unpinned requirement added to the newly-added list and the name
removed from the native set; and the concrete scenario: catalog
`numpy -> [1.23.5, 1.24.0]`, native set `{numpy}`, request `[numpy==9.9.9]`
gives dropped `[numpy==9.9.9]`, newly-added `[numpy]` unpinned, and an empty
native set. -/
theorem identify_native_unavailable_substituted :
    (∀ (ps : List Requirement) (valid : List (String × List String))
       (n : Finset String) (p : Requirement) (vs : List String) (v : String),
       p ∈ ps → (∀ q ∈ ps, q.name = p.name → q = p) →
       Requirement.parse p.name = { name := p.name, specs := [] } →
       lookupDict valid p.name = some vs → p.versionReq = some v → v ∉ vs →
       p.name ∈ n →
       p ∈ (identify_supported_packages ps valid n).dropped ∧
       ({ name := p.name, specs := [] } : Requirement) ∈
         (identify_supported_packages ps valid n).newDeps ∧
       p.name ∉ (identify_supported_packages ps valid n).native) ∧
    identify_supported_packages [{ name := "numpy", specs := [("==", "9.9.9")] }]
        [("numpy", ["1.23.5", "1.24.0"])] {"numpy"}
      = { supported := [],
          dropped := [{ name := "numpy", specs := [("==", "9.9.9")] }],
          newDeps := [{ name := "numpy", specs := [] }], native := ∅ } := by
  constructor
  · intro ps valid n p vs v hp huniq hparse hl hv hnv hn
    obtain ⟨hd, hnew⟩ := dropped_complete hl hv hnv ps n hp huniq hn
    refine ⟨hd, hparse ▸ hnew, ?_⟩
    intro hmem
    have hnone := (native_identify_char.mp hmem).2 p hp rfl
    rw [hnone] at hl
    cases hl
  · decide

/-- Witness for C3: the general statement applied to the scenario input. -/
theorem identify_native_unavailable_substituted_witness :
    ({ name := "numpy", specs := [("==", "9.9.9")] } : Requirement) ∈
      (identify_supported_packages [{ name := "numpy", specs := [("==", "9.9.9")] }]
        [("numpy", ["1.23.5", "1.24.0"])] {"numpy"}).dropped ∧
    ({ name := "numpy", specs := [] } : Requirement) ∈
      (identify_supported_packages [{ name := "numpy", specs := [("==", "9.9.9")] }]
        [("numpy", ["1.23.5", "1.24.0"])] {"numpy"}).newDeps ∧
    "numpy" ∉
      (identify_supported_packages [{ name := "numpy", specs := [("==", "9.9.9")] }]
        [("numpy", ["1.23.5", "1.24.0"])] {"numpy"}).native :=
  identify_native_unavailable_substituted.1
    [{ name := "numpy", specs := [("==", "9.9.9")] }]
    [("numpy", ["1.23.5", "1.24.0"])] {"numpy"}
    { name := "numpy", specs := [("==", "9.9.9")] } ["1.23.5", "1.24.0"] "9.9.9"
    (by decide) (by decide) (by decide) (by decide) (by decide) (by decide)
    (by decide)

/-- C4: in any call to `identify_supported_packages`, a requested package with
no version constraint whose name is in the catalog lands in the supported list
and never in the dropped list. -/
theorem identify_unpinned_catalog_supported :
    ∀ (ps : List Requirement) (valid : List (String × List String))
      (n : Finset String) (p : Requirement),
      p ∈ ps → p.specs = [] → (lookupDict valid p.name).isSome →
      p ∈ (identify_supported_packages ps valid n).supported ∧
      p ∉ (identify_supported_packages ps valid n).dropped := by
  intro ps valid n p hp hspecs hsome
  obtain ⟨vs, hl⟩ := Option.isSome_iff_exists.mp hsome
  have hnone : p.versionReq = none := by
    simp [Requirement.versionReq, hspecs]
  constructor
  · exact supported_complete hp hl (Or.inl hnone)
  · intro hd
    obtain ⟨_, _, vs', v, _, hv, _⟩ := mem_dropped_identify hd
    rw [hnone] at hv
    cases hv

/-- Witness for C4: an unpinned in-catalog request is supported and not
dropped. -/
theorem identify_unpinned_catalog_supported_witness :
    ({ name := "pandas", specs := [] } : Requirement) ∈
      (identify_supported_packages [{ name := "pandas", specs := [] }]
        [("pandas", ["2.0.0"])] ∅).supported ∧
    ({ name := "pandas", specs := [] } : Requirement) ∉
      (identify_supported_packages [{ name := "pandas", specs := [] }]
        [("pandas", ["2.0.0"])] ∅).dropped :=
  identify_unpinned_catalog_supported [{ name := "pandas", specs := [] }]
    [("pandas", ["2.0.0"])] ∅ { name := "pandas", specs := [] }
    (by decide) (by decide) (by decide)

/-- C5: reconciliation is idempotent: re-running `identify_supported_packages`
on the first run's supported-plus-newly-added output, with the same catalog
and the native set left by the first run, drops nothing and adds nothing
(requested names being plain names, as `pkg_resources` guarantees). -/
theorem identify_idempotent :
    ∀ (ps : List Requirement) (valid : List (String × List String))
      (n : Finset String),
      (∀ q ∈ ps, Requirement.parse q.name = { name := q.name, specs := [] }) →
      (identify_supported_packages
          ((identify_supported_packages ps valid n).supported ++
            (identify_supported_packages ps valid n).newDeps)
          valid (identify_supported_packages ps valid n).native).dropped = [] ∧
      (identify_supported_packages
          ((identify_supported_packages ps valid n).supported ++
            (identify_supported_packages ps valid n).newDeps)
          valid (identify_supported_packages ps valid n).native).newDeps = [] := by
  intro ps valid n hr
  apply identify_nodrop
  intro q hq vs hl
  rcases List.mem_append.mp hq with hq1 | hq2
  · obtain ⟨_, vs', hl', hok⟩ := mem_supported_identify hq1
    have hvs : vs' = vs := Option.some.inj (hl'.symm.trans hl)
    rw [← hvs]
    exact hok
  · obtain ⟨q', hq', hpq, _⟩ := mem_newDeps_identify hq2
    rw [hr q' hq'] at hpq
    refine Or.inl ?_
    rw [hpq]
    rfl

/-- Witness for C5: idempotence at the C3 scenario input. -/
theorem identify_idempotent_witness :
    (identify_supported_packages
        ((identify_supported_packages
            [{ name := "numpy", specs := [("==", "9.9.9")] }]
            [("numpy", ["1.23.5", "1.24.0"])] {"numpy"}).supported ++
          (identify_supported_packages
            [{ name := "numpy", specs := [("==", "9.9.9")] }]
            [("numpy", ["1.23.5", "1.24.0"])] {"numpy"}).newDeps)
        [("numpy", ["1.23.5", "1.24.0"])]
        (identify_supported_packages
            [{ name := "numpy", specs := [("==", "9.9.9")] }]
            [("numpy", ["1.23.5", "1.24.0"])] {"numpy"}).native).dropped = [] ∧
    (identify_supported_packages
        ((identify_supported_packages
            [{ name := "numpy", specs := [("==", "9.9.9")] }]
            [("numpy", ["1.23.5", "1.24.0"])] {"numpy"}).supported ++
          (identify_supported_packages
            [{ name := "numpy", specs := [("==", "9.9.9")] }]
            [("numpy", ["1.23.5", "1.24.0"])] {"numpy"}).newDeps)
        [("numpy", ["1.23.5", "1.24.0"])]
        (identify_supported_packages
            [{ name := "numpy", specs := [("==", "9.9.9")] }]
            [("numpy", ["1.23.5", "1.24.0"])] {"numpy"}).native).newDeps = [] :=
  identify_idempotent [{ name := "numpy", specs := [("==", "9.9.9")] }]
    [("numpy", ["1.23.5", "1.24.0"])] {"numpy"} (by decide)

/-- C6: in any call to `identify_supported_packages` (requested names being
plain names), a requested package whose name is absent from the catalog, and a
requested package whose name is in the catalog but whose pinned version is
unavailable while its name is not in the native set, appear in none of the
three output lists. -/
theorem identify_unaccounted_omitted :
    ∀ (ps : List Requirement) (valid : List (String × List String))
      (n : Finset String) (p : Requirement),
      p ∈ ps →
      (∀ q ∈ ps, Requirement.parse q.name = { name := q.name, specs := [] }) →
      (lookupDict valid p.name = none →
        p ∉ (identify_supported_packages ps valid n).supported ∧
        p ∉ (identify_supported_packages ps valid n).dropped ∧
        p ∉ (identify_supported_packages ps valid n).newDeps) ∧
      (∀ vs v, lookupDict valid p.name = some vs → p.versionReq = some v →
        v ∉ vs → p.name ∉ n →
        p ∉ (identify_supported_packages ps valid n).supported ∧
        p ∉ (identify_supported_packages ps valid n).dropped ∧
        p ∉ (identify_supported_packages ps valid n).newDeps) := by
  intro ps valid n p hp hr
  constructor
  · intro hA
    refine ⟨?_, ?_, ?_⟩
    · intro hmem
      obtain ⟨_, vs, hl, _⟩ := mem_supported_identify hmem
      rw [hA] at hl
      cases hl
    · intro hmem
      obtain ⟨_, _, vs, v, hl, _, _⟩ := mem_dropped_identify hmem
      rw [hA] at hl
      cases hl
    · intro hmem
      obtain ⟨q, hq, hpq, vs, hlq⟩ := mem_newDeps_identify hmem
      rw [hr q hq] at hpq
      have hA2 : lookupDict valid q.name = none := by
        rw [hpq] at hA
        exact hA
      rw [hA2] at hlq
      cases hlq
  · intro vs v hl hv hnv hn
    refine ⟨?_, ?_, ?_⟩
    · intro hmem
      obtain ⟨_, vs', hl', hok⟩ := mem_supported_identify hmem
      have hvs : vs' = vs := Option.some.inj (hl'.symm.trans hl)
      rcases hok with hnone | ⟨v', hv', hmem'⟩
      · rw [hnone] at hv
        cases hv
      · have hveq : v' = v := Option.some.inj (hv'.symm.trans hv)
        rw [hveq, hvs] at hmem'
        exact hnv hmem'
    · intro hmem
      obtain ⟨_, hn', _⟩ := mem_dropped_identify hmem
      exact hn hn'
    · intro hmem
      obtain ⟨q, hq, hpq, _, _⟩ := mem_newDeps_identify hmem
      rw [hr q hq] at hpq
      have hnone : p.versionReq = none := by
        rw [hpq]
        rfl
      rw [hnone] at hv
      cases hv

/-- Witness for C6: a catalog-absent request lands in no output list. -/
theorem identify_unaccounted_omitted_witness :
    ({ name := "scipy", specs := [] } : Requirement) ∉
      (identify_supported_packages [{ name := "scipy", specs := [] }] [] ∅).supported ∧
    ({ name := "scipy", specs := [] } : Requirement) ∉
      (identify_supported_packages [{ name := "scipy", specs := [] }] [] ∅).dropped ∧
    ({ name := "scipy", specs := [] } : Requirement) ∉
      (identify_supported_packages [{ name := "scipy", specs := [] }] [] ∅).newDeps :=
  (identify_unaccounted_omitted [{ name := "scipy", specs := [] }] [] ∅
    { name := "scipy", specs := [] } (by decide) (by decide)).1 (by decide)

/-- C7: the native set never grows across a call to
`identify_supported_packages`, and the names removed are exactly the requested
names that are both in the catalog and in the incoming set, regardless of the
branch those packages took. -/
theorem identify_native_removed_exactly :
    ∀ (ps : List Requirement) (valid : List (String × List String))
      (n : Finset String),
      (identify_supported_packages ps valid n).native ⊆ n ∧
      (identify_supported_packages ps valid n).native =
        n.filter fun x => ¬ ∃ p ∈ ps, p.name = x ∧ (lookupDict valid x).isSome := by
  intro ps valid n
  constructor
  · intro x hx
    exact (native_identify_char.mp hx).1
  · ext x
    rw [native_identify_char, Finset.mem_filter]
    constructor
    · rintro ⟨hx, hall⟩
      refine ⟨hx, ?_⟩
      rintro ⟨p, hp, hname, hsome⟩
      rw [hall p hp hname] at hsome
      simp at hsome
    · rintro ⟨hx, hnot⟩
      refine ⟨hx, fun p hp hname => ?_⟩
      cases hlk : lookupDict valid x with
      | none => rfl
      | some vs =>
        exact absurd ⟨p, hp, hname, by rw [hlk]; rfl⟩ hnot

/-- Witness for C7: at a concrete call, the native set shrinks to exactly the
non-requested/non-catalog names. -/
theorem identify_native_removed_exactly_witness :
    (identify_supported_packages [{ name := "numpy", specs := [] }]
        [("numpy", ["1.24.0"])] {"numpy", "torch"}).native ⊆ {"numpy", "torch"} ∧
    (identify_supported_packages [{ name := "numpy", specs := [] }]
        [("numpy", ["1.24.0"])] {"numpy", "torch"}).native =
      ({"numpy", "torch"} : Finset String).filter fun x =>
        ¬ ∃ p ∈ [({ name := "numpy", specs := [] } : Requirement)],
          p.name = x ∧ (lookupDict [("numpy", ["1.24.0"])] x).isSome :=
  identify_native_removed_exactly [{ name := "numpy", specs := [] }]
    [("numpy", ["1.24.0"])] {"numpy", "torch"}

/-- Splitting at every occurrence of a separator character, over the character
list of a string (the executable core of Python `str.split(sep)` for a
one-character separator). -/
def splitCharAux (sep : Char) : List Char → List Char → List String
  | [], acc => [String.mk acc.reverse]
  | c :: cs, acc =>
    if c = sep then String.mk acc.reverse :: splitCharAux sep cs []
    else splitCharAux sep cs (c :: acc)

/-- Python `s.split(sep)` for a one-character separator. -/
def splitChar (sep : Char) (s : String) : List String := splitCharAux sep s.data []

/-- The lines of `contents`, as the `re.MULTILINE` anchors in
`get_package_name_from_metadata` divide them: split at every newline. -/
def splitLines (s : String) : List String := splitChar '\n' s

/-- Executable string-prefix test, over character lists. -/
def strIsPrefixOf (p s : String) : Bool := p.data.isPrefixOf s.data

/-- Executable `String.drop`, over character lists. -/
def strDrop (s : String) (n : Nat) : String := String.mk (s.data.drop n)

/-- Python `str.strip()`: remove whitespace from both ends. -/
def strTrim (s : String) : String :=
  String.mk ((s.data.dropWhile Char.isWhitespace).reverse.dropWhile
    Char.isWhitespace).reverse

/-- Python `str.lower()`. -/
def strToLower (s : String) : String := String.mk (s.data.map Char.toLower)

/-- The capture of the regex `^<tag>: (.*)$` against one line: the rest of the
line, when the line starts with `"<tag>: "`. -/
def captureTag (tag line : String) : Option String :=
  if strIsPrefixOf (tag ++ ": ") line then
    some (strDrop line (tag ++ ": ").length)
  else none

/-- `re.search("^<tag>: (.*)$", contents, flags=re.MULTILINE)` over the line
list of `contents`: the capture of the first matching line. -/
def findTag (tag : String) : List String → Option String
  | [] => none
  | line :: rest =>
    match captureTag tag line with
    | some r => some r
    | none => findTag tag rest

/-- `get_package_name_from_metadata` (packaging_utils.py lines 25-49), as a
function of the METADATA file's contents: the `Name:` capture, extended with
`==<version>` when a `Version:` line is also present, then stripped and
lowercased; `none` when no `Name:` line exists. -/
def get_package_name_from_metadata (contents : String) : Option String :=
  match findTag "Name" (splitLines contents) with
  | none => none
  | some requirement_line =>
    match findTag "Version" (splitLines contents) with
    | none => some (strToLower (strTrim requirement_line))
    | some version =>
      some (strToLower (strTrim (requirement_line ++ "==" ++ version)))

theorem captureTag_self (tag s : String) :
    captureTag tag ((tag ++ ": ") ++ s) = some s := by
  have hpre : strIsPrefixOf (tag ++ ": ") ((tag ++ ": ") ++ s) = true := by
    unfold strIsPrefixOf
    rw [String.data_append]
    simp [List.isPrefixOf_iff_prefix]
  have hdrop : strDrop ((tag ++ ": ") ++ s) (tag ++ ": ").length = s := by
    unfold strDrop
    rw [String.data_append]
    have hlen : (tag ++ ": ").length = (tag ++ ": ").data.length := rfl
    rw [hlen, List.drop_left]
  have hdrop2 : strDrop ((tag ++ ": ") ++ s) (tag.length + ": ".length) = s := by
    rw [← String.length_append]
    exact hdrop
  simp [captureTag, hpre, hdrop, hdrop2]

theorem captureTag_none {tag line : String}
    (h : strIsPrefixOf (tag ++ ": ") line = false) :
    captureTag tag line = none := by
  simp [captureTag, h]

theorem findTag_of_split {tag : String} {pre post : List String} {s : String}
    (hpre : ∀ l ∈ pre, strIsPrefixOf (tag ++ ": ") l = false) :
    findTag tag (pre ++ ((tag ++ ": ") ++ s) :: post) = some s := by
  induction pre with
  | nil => simp [findTag, captureTag_self]
  | cons l rest ih =>
    have hl := hpre l (List.mem_cons_self _ _)
    simp only [List.cons_append, findTag, captureTag_none hl]
    exact ih (fun l' hl' => hpre l' (List.mem_cons_of_mem _ hl'))

theorem findTag_none {tag : String} {ls : List String}
    (h : ∀ l ∈ ls, strIsPrefixOf (tag ++ ": ") l = false) :
    findTag tag ls = none := by
  induction ls with
  | nil => rfl
  | cons l rest ih =>
    simp only [findTag, captureTag_none (h l (List.mem_cons_self _ _))]
    exact ih (fun l' hl' => h l' (List.mem_cons_of_mem _ hl'))

/-- C9: for any metadata text whose first `Name: `-line carries `name`, the
reader yields `name` stripped and lowercased; when a `Version: `-line is also
present (first carrying `version`) it yields `name==version` stripped and
lowercased; with no `Name: ` line it yields nothing; and the concrete
scenario: `"Name: numpy\nVersion: 1.23.5\n"` yields `"numpy==1.23.5"`. -/
theorem metadata_reader_contract :
    (∀ (c : String) (pre post : List String) (name : String),
       splitLines c = pre ++ ("Name: " ++ name) :: post →
       (∀ l ∈ pre, strIsPrefixOf "Name: " l = false) →
       ((∀ l ∈ splitLines c, strIsPrefixOf "Version: " l = false) →
          get_package_name_from_metadata c = some (strToLower (strTrim name))) ∧
       (∀ (pre2 post2 : List String) (version : String),
          splitLines c = pre2 ++ ("Version: " ++ version) :: post2 →
          (∀ l ∈ pre2, strIsPrefixOf "Version: " l = false) →
          get_package_name_from_metadata c =
            some (strToLower (strTrim (name ++ "==" ++ version))))) ∧
    (∀ c : String,
       (∀ l ∈ splitLines c, strIsPrefixOf "Name: " l = false) →
       get_package_name_from_metadata c = none) ∧
    get_package_name_from_metadata "Name: numpy\nVersion: 1.23.5\n" =
      some "numpy==1.23.5" := by
  have hN : ("Name" ++ ": " : String) = "Name: " := by decide
  have hV : ("Version" ++ ": " : String) = "Version: " := by decide
  refine ⟨?_, ?_, by decide⟩
  · intro c pre post name hsplit hpre
    have hname : findTag "Name" (splitLines c) = some name := by
      rw [hsplit]
      have heq : ("Name: " ++ name) = (("Name" ++ ": ") ++ name) := by rw [hN]
      rw [heq]
      exact findTag_of_split (fun l hl => by rw [hN]; exact hpre l hl)
    constructor
    · intro hnov
      have hver : findTag "Version" (splitLines c) = none :=
        findTag_none (fun l hl => by rw [hV]; exact hnov l hl)
      simp [get_package_name_from_metadata, hname, hver]
    · intro pre2 post2 version hsplit2 hpre2
      have hver : findTag "Version" (splitLines c) = some version := by
        rw [hsplit2]
        have heq : ("Version: " ++ version) = (("Version" ++ ": ") ++ version) := by
          rw [hV]
        rw [heq]
        exact findTag_of_split (fun l hl => by rw [hV]; exact hpre2 l hl)
      simp [get_package_name_from_metadata, hname, hver]
  · intro c hno
    have hname : findTag "Name" (splitLines c) = none :=
      findTag_none (fun l hl => by rw [hN]; exact hno l hl)
    simp [get_package_name_from_metadata, hname]

/-- Witness for C9: the general statement applied to a one-line metadata
text. -/
theorem metadata_reader_contract_witness :
    get_package_name_from_metadata "Name: NumPy" =
      some (strToLower (strTrim "NumPy")) :=
  (metadata_reader_contract.1 "Name: NumPy" [] [] "NumPy"
    (by decide) (by decide)).1 (by decide)

/-- `SNOWPARK_PACKAGE_NAME` (packaging_utils.py line 22). -/
def SNOWPARK_PACKAGE_NAME : String := "snowflake-snowpark-python"

/-- The outcome of `pkg_resources.get_distribution(SNOWPARK_PACKAGE_NAME)
.version`: the version string of the locally installed distribution, the
`DistributionNotFound` exception, or any other exception. -/
inductive DistLookup where
  | found (version : String)
  | distributionNotFound
  | otherFailure
  deriving DecidableEq, Repr

/-- The Python exceptions that can arise inside the `try` block of
`add_snowpark_package`.  `keyError` is what
`valid_packages[SNOWPARK_PACKAGE_NAME]` raises when the catalog lacks the
Snowpark entry. -/
inductive PyExc where
  | keyError
  | distributionNotFound
  | otherError
  deriving DecidableEq, Repr

/-- Whether an `Except` computation finished without an exception. -/
def isOkExcept {ε α : Type} : Except ε α → Bool
  | .ok _ => true
  | .error _ => false

/-- Python `dict` assignment `d[k] = v` on an association-list dictionary:
replace the value when the key exists, append the pair otherwise. -/
def dictInsert (d : List (String × String)) (k v : String) :
    List (String × String) :=
  if (lookupDict d k).isSome then
    d.map (fun kv => if kv.1 = k then (k, v) else kv)
  else d ++ [(k, v)]

/-- The `try` block of `add_snowpark_package` (packaging_utils.py lines
317-330), run on the dictionary `d` into which the Snowpark package was just
inserted unpinned: a failing distribution lookup raises; when the catalog
lacks the Snowpark entry, `valid_packages[SNOWPARK_PACKAGE_NAME]` raises
`KeyError`; otherwise the entry is re-pinned to the local version exactly when
that version is in the catalog's list (the unavailable-version case only logs
a warning). -/
def add_snowpark_tryBody (d : List (String × String))
    (valid : List (String × List String)) (lk : DistLookup) :
    Except PyExc (List (String × String)) :=
  match lk with
  | .distributionNotFound => .error .distributionNotFound
  | .otherFailure => .error .otherError
  | .found v =>
    match lookupDict valid SNOWPARK_PACKAGE_NAME with
    | none => .error .keyError
    | some vs =>
      if v ∈ vs then
        .ok (dictInsert d SNOWPARK_PACKAGE_NAME
          (SNOWPARK_PACKAGE_NAME ++ "==" ++ v))
      else .ok d

/-- `add_snowpark_package(package_dict, valid_packages)` (packaging_utils.py
lines 300-343).  The whole body is guarded by the absence of
`SNOWPARK_PACKAGE_NAME` from the dictionary; the `except DistributionNotFound`
and `except Exception` handlers (lines 331-342) turn every exception of the
`try` block into a logged warning, leaving the dictionary as it stood after
the unpinned insertion of line 316. -/
def add_snowpark_package (d : List (String × String))
    (valid : List (String × List String)) (lk : DistLookup) :
    Except PyExc (List (String × String)) :=
  if (lookupDict d SNOWPARK_PACKAGE_NAME).isSome then .ok d
  else
    match add_snowpark_tryBody
        (dictInsert d SNOWPARK_PACKAGE_NAME SNOWPARK_PACKAGE_NAME) valid lk with
    | .ok d2 => .ok d2
    | .error .distributionNotFound =>
      .ok (dictInsert d SNOWPARK_PACKAGE_NAME SNOWPARK_PACKAGE_NAME)
    | .error _ =>
      .ok (dictInsert d SNOWPARK_PACKAGE_NAME SNOWPARK_PACKAGE_NAME)

theorem lookupDict_append_self {d : List (String × String)} {k v : String}
    (h : lookupDict d k = none) : lookupDict (d ++ [(k, v)]) k = some v := by
  induction d with
  | nil => simp [lookupDict]
  | cons kv rest ih =>
    obtain ⟨a, b⟩ := kv
    by_cases hak : a = k
    · simp [lookupDict, hak] at h
    · simp only [List.cons_append, lookupDict, if_neg hak] at h ⊢
      exact ih h

theorem lookupDict_map_replace {d : List (String × String)} {k v : String}
    (h : (lookupDict d k).isSome) :
    lookupDict (d.map fun kv => if kv.1 = k then (k, v) else kv) k = some v := by
  induction d with
  | nil => simp [lookupDict] at h
  | cons kv rest ih =>
    obtain ⟨a, b⟩ := kv
    by_cases hak : a = k
    · subst hak
      have hfun : (if (a, b).1 = a then (a, v) else (a, b)) = (a, v) := by simp
      rw [List.map_cons, hfun]
      simp [lookupDict]
    · have hfun : (if (a, b).1 = k then (k, v) else (a, b)) = (a, b) := by
        simp [hak]
      have hh : (lookupDict rest k).isSome := by
        simp only [lookupDict] at h
        rw [if_neg hak] at h
        exact h
      rw [List.map_cons, hfun]
      simp only [lookupDict]
      rw [if_neg hak]
      exact ih hh

theorem lookupDict_dictInsert_self (d : List (String × String)) (k v : String) :
    lookupDict (dictInsert d k v) k = some v := by
  unfold dictInsert
  by_cases h : (lookupDict d k).isSome
  · rw [if_pos h]
    exact lookupDict_map_replace h
  · rw [if_neg h]
    exact lookupDict_append_self (Option.not_isSome_iff_eq_none.mp h)

/-- C8: `add_snowpark_package` never raises; when the Snowpark package was
absent from the dictionary and the version lookup fails in any way (local
distribution missing, any other lookup exception, or a catalog without the
Snowpark entry, whose indexing raises `KeyError`), the call returns normally
with the Snowpark entry inserted unpinned. -/
theorem add_snowpark_package_never_raises :
    ∀ (d : List (String × String)) (valid : List (String × List String))
      (lk : DistLookup),
      isOkExcept (add_snowpark_package d valid lk) = true ∧
      (lookupDict d SNOWPARK_PACKAGE_NAME = none →
        (lk = .distributionNotFound ∨ lk = .otherFailure ∨
          lookupDict valid SNOWPARK_PACKAGE_NAME = none) →
        add_snowpark_package d valid lk =
          .ok (dictInsert d SNOWPARK_PACKAGE_NAME SNOWPARK_PACKAGE_NAME) ∧
        lookupDict (dictInsert d SNOWPARK_PACKAGE_NAME SNOWPARK_PACKAGE_NAME)
          SNOWPARK_PACKAGE_NAME = some SNOWPARK_PACKAGE_NAME) := by
  intro d valid lk
  by_cases hpres : (lookupDict d SNOWPARK_PACKAGE_NAME).isSome
  · constructor
    · simp [add_snowpark_package, hpres, isOkExcept]
    · intro habs _
      rw [habs] at hpres
      simp at hpres
  · have hins := lookupDict_dictInsert_self d SNOWPARK_PACKAGE_NAME
      SNOWPARK_PACKAGE_NAME
    cases lk with
    | distributionNotFound =>
      constructor
      · simp [add_snowpark_package, hpres, add_snowpark_tryBody, isOkExcept]
      · intro _ _
        exact ⟨by simp [add_snowpark_package, hpres, add_snowpark_tryBody], hins⟩
    | otherFailure =>
      constructor
      · simp [add_snowpark_package, hpres, add_snowpark_tryBody, isOkExcept]
      · intro _ _
        exact ⟨by simp [add_snowpark_package, hpres, add_snowpark_tryBody], hins⟩
    | found v =>
      cases hcat : lookupDict valid SNOWPARK_PACKAGE_NAME with
      | none =>
        constructor
        · simp [add_snowpark_package, hpres, add_snowpark_tryBody, hcat,
            isOkExcept]
        · intro _ _
          exact ⟨by simp [add_snowpark_package, hpres, add_snowpark_tryBody,
            hcat], hins⟩
      | some vs =>
        constructor
        · by_cases hv : v ∈ vs <;>
            simp [add_snowpark_package, hpres, add_snowpark_tryBody, hcat, hv,
              isOkExcept]
        · intro _ hfail
          rcases hfail with h | h | h
          · cases h
          · cases h
          · cases h

/-- Witness for C8: a failing lookup on an empty dictionary returns normally
with an unpinned Snowpark entry. -/
theorem add_snowpark_package_never_raises_witness :
    add_snowpark_package [] [] DistLookup.otherFailure =
      .ok (dictInsert [] SNOWPARK_PACKAGE_NAME SNOWPARK_PACKAGE_NAME) ∧
    lookupDict (dictInsert [] SNOWPARK_PACKAGE_NAME SNOWPARK_PACKAGE_NAME)
      SNOWPARK_PACKAGE_NAME = some SNOWPARK_PACKAGE_NAME :=
  (add_snowpark_package_never_raises [] [] DistLookup.otherFailure).2
    (by decide) (by decide)

/-- C10: when the dictionary already has the Snowpark package as a key,
`add_snowpark_package` returns it entirely unchanged: no lookup is attempted
and no entry is touched. -/
theorem add_snowpark_package_present_unchanged :
    ∀ (d : List (String × String)) (valid : List (String × List String))
      (lk : DistLookup),
      (lookupDict d SNOWPARK_PACKAGE_NAME).isSome →
      add_snowpark_package d valid lk = .ok d := by
  intro d valid lk h
  simp [add_snowpark_package, h]

/-- Witness for C10: a dictionary already pinning the Snowpark package is
returned unchanged. -/
theorem add_snowpark_package_present_unchanged_witness :
    add_snowpark_package [(SNOWPARK_PACKAGE_NAME, "snowflake-snowpark-python==1.5.0")]
      [] (DistLookup.found "1.5.0") =
    .ok [(SNOWPARK_PACKAGE_NAME, "snowflake-snowpark-python==1.5.0")] :=
  add_snowpark_package_present_unchanged
    [(SNOWPARK_PACKAGE_NAME, "snowflake-snowpark-python==1.5.0")] []
    (DistLookup.found "1.5.0") (by decide)

/-- Python `s.split(",")[0]`: the prefix before the first comma. -/
def firstField (s : String) : String := String.mk (s.data.takeWhile (· ≠ ','))

/-- `os.path.split(p)[0]` for POSIX paths: everything up to the final slash,
with trailing slashes stripped unless that head consists only of slashes. -/
def posixSplitHead (s : String) : String :=
  let headAll := (s.data.reverse.dropWhile (· ≠ '/')).reverse
  if headAll.all (· = '/') then String.mk headAll
  else String.mk ((headAll.reverse.dropWhile (· = '/')).reverse)

/-- The record-entry extraction of `get_downloaded_packages` for one line of a
RECORD file (packaging_utils.py lines 82-84):
`os.path.split(line)[0].split(",")[0]`, falling back to `line.split(",")[0]`
when the directory part is empty. -/
def recordEntryOfLine (line : String) : String :=
  let entry := firstField (posixSplitHead line)
  if entry = "" then firstField line else entry

/-- Suffix test over character lists. -/
def strEndsWith (sfx s : String) : Bool := sfx.data.isSuffixOf s.data

/-- `posixpath.join(directory, p)` for one extra component: an absolute `p`
discards `directory`; otherwise a slash is interposed unless `directory` is
empty or already ends with one. -/
def joinPosix (directory p : String) : String :=
  if strIsPrefixOf "/" p then p
  else if directory = "" then p
  else if strEndsWith "/" directory then directory ++ p
  else directory ++ "/" ++ p

/-- `posixpath.normpath` for absolute POSIX paths: split at slashes, drop
empty and `.` components, resolve `..` against the component stack (`..`
above the root disappears), and rejoin from the root. -/
def normpathAbs (p : String) : String :=
  let stack := (splitChar '/' p).foldl
    (fun acc c =>
      if c = "" ∨ c = "." then acc
      else if c = ".." then acc.dropLast
      else acc ++ [c]) ([] : List String)
  if stack = [] then "/"
  else stack.foldl (fun acc c => acc ++ "/" ++ c) ""

/-- `os.path.abspath` for an absolute input (the install directories the
callers pass are absolute, so `join(getcwd(), p)` is `p` and `abspath`
reduces to `normpath`). -/
def abspathAbs (p : String) : String := normpathAbs p

/-- Substring test over character lists (Python `needle in hay`). -/
def listIsInfixOf (needle : List Char) : List Char → Bool
  | [] => needle.isEmpty
  | c :: tail => needle.isPrefixOf (c :: tail) || listIsInfixOf needle tail

/-- Python `needle in hay` on strings: substring containment. -/
def strInStr (needle hay : String) : Bool := listIsInfixOf needle.data hay.data

/-- One `*dist-info` directory found by the glob of `get_downloaded_packages`:
the contents of its METADATA file, and the `readlines()` of its RECORD file
when that file exists. -/
structure DistInfo where
  metadataContents : String
  recordLines : Option (List String)
  deriving DecidableEq, Repr

/-- The record-entry filter of `get_downloaded_packages` (packaging_utils.py
lines 87-98) over the deduplicated entries of one RECORD file: keep an entry
when its resolved absolute path exists on disk (`fs` lists the absolute paths
that exist), the install `directory` occurs in the resolved path
(`directory in record_entry_full_path`, a substring test), and the entry is
non-empty. -/
def includedEntries (fs : List String) (directory : String)
    (recordLines : List String) : List String :=
  ((recordLines.map recordEntryOfLine).dedup).filter fun entry =>
    fs.contains (abspathAbs (joinPosix directory entry)) &&
    strInStr directory (abspathAbs (joinPosix directory entry)) &&
    decide (0 < entry.length)

/-- `get_downloaded_packages(directory)` (packaging_utils.py lines 52-103), as
a function of the install directory, the set `fs` of absolute paths existing
on disk, and the `*dist-info` directories found by the glob: each dist-info
whose METADATA yields a package name and whose RECORD exists contributes the
parsed package mapped to its filtered record entries. -/
def get_downloaded_packages (fs : List String) (directory : String) :
    List DistInfo → List (Requirement × List String)
  | [] => []
  | di :: rest =>
    match get_package_name_from_metadata di.metadataContents with
    | none => get_downloaded_packages fs directory rest
    | some package =>
      match di.recordLines with
      | none => get_downloaded_packages fs directory rest
      | some lines =>
        (Requirement.parse package, includedEntries fs directory lines) ::
          get_downloaded_packages fs directory rest

/-- An absolute path lies within the root directory `root` when it is the
root itself or a path below it. -/
def isWithinRoot (root p : String) : Bool :=
  p == root || strIsPrefixOf (root ++ "/") p

/-- C1 (failing input): for install root `/a/b`, a dist-info whose RECORD
references `../bc/f.py` — a record entry `../bc` resolving to `/a/bc`,
outside the root — and an existing path `/a/bc`,
`get_downloaded_packages` returns the entry `../bc` for the package: the
substring test `directory in record_entry_full_path` accepts `/a/bc` because
`/a/b` occurs in it, yet the resolved path does not lie within the root. -/
theorem indexer_includes_path_outside_root :
    get_downloaded_packages ["/a/bc"] "/a/b"
        [{ metadataContents := "Name: pkg",
           recordLines := some ["../bc/f.py,sha256=abc,10\n"] }]
      = [({ name := "pkg", specs := [] }, ["../bc"])] ∧
    abspathAbs (joinPosix "/a/b" "../bc") = "/a/bc" ∧
    isWithinRoot "/a/b" "/a/bc" = false := by decide

/-- Rendering a relative path from its components. -/
def renderRel : List String → String
  | [] => ""
  | c :: rest => rest.foldl (fun acc x => acc ++ "/" ++ x) c

/-- glob's `*<ext>` component pattern: the name ends with `ext`, and hidden
names are not matched since the pattern does not start with a dot. -/
def globExtMatch (ext name : String) : Bool :=
  strEndsWith ext name && !(strIsPrefixOf "." name)

/-- glob's `*` component — which is also what `**` matches when
`recursive=True` is not passed, as in packaging_utils.py line 248: exactly
one non-hidden component. -/
def globStarMatch (name : String) : Bool := !(strIsPrefixOf "." name)

/-- The files matched by the two globs of `detect_native_dependencies`
(packaging_utils.py lines 247-249) for one extension, over the list `fs` of
files under the target directory given as relative component paths:
`glob(os.path.join(target, "**", "*<ext>"))` without `recursive=True` — files
exactly one directory below the target — followed by
`glob(os.path.join(target, "*<ext>"))`, the files directly at the target. -/
def globNativeFiles (fs : List (List String)) (ext : String) :
    List (List String) :=
  fs.filter (fun p =>
    match p with
    | [d, f] => globStarMatch d && globExtMatch ext f
    | _ => false) ++
  fs.filter (fun p =>
    match p with
    | [f] => globExtMatch ext f
    | _ => false)

/-- `os.path.split(relative_path)[0]`, falling back to the whole relative
path when the directory part is empty (packaging_utils.py lines 258-260). -/
def recordEntryOfGlobPath (p : List String) : String :=
  let entry := posixSplitHead (renderRel p)
  if entry = "" then renderRel p else entry

/-- `invert_downloaded_package_to_entry_map` followed by the ownership lookup
(packaging_utils.py lines 212-237 and 263-268): the names of the packages
whose record-entry list contains `entry`. -/
def entryOwners (downloaded : List (Requirement × List String))
    (entry : String) : List String :=
  (downloaded.filter (fun pr => pr.2.contains entry)).map (fun pr => pr.1.name)

/-- The native-extension set of `detect_native_dependencies`
(packaging_utils.py lines 240-245): `.pyd`, `.pyx`, `.pxd`, and `.dll` on
Windows or `.so` elsewhere. -/
def nativeExtensions (isWindows : Bool) : List String :=
  [".pyd", ".pyx", ".pxd", if isWindows then ".dll" else ".so"]

/-- `detect_native_dependencies(target, downloaded_packages_dict)`
(packaging_utils.py lines 191-269), over the list `fs` of files under the
target directory (as relative component paths): for every extension, every
globbed file's top-level record entry is looked up in the inverted package
map, and every owning package name is accumulated into the result set. -/
def detect_native_dependencies (isWindows : Bool) (fs : List (List String))
    (downloaded : List (Requirement × List String)) : Finset String :=
  (nativeExtensions isWindows).foldl
    (fun native ext =>
      (globNativeFiles fs ext).foldl
        (fun native2 p =>
          (entryOwners downloaded (recordEntryOfGlobPath p)).foldl
            (fun acc libName => insert libName acc) native2)
        native)
    ∅

/-- C2 (failing input): a native file nested three levels below the target
(`pkg/sub/deep.so`), owned by package `pkg` through record entry `pkg`, is
not detected — the globs without `recursive=True` reach only files one or two
levels below the target — while the same file two levels down
(`pkg/lib.so`) is detected. -/
theorem native_detector_misses_deep_files :
    detect_native_dependencies false [["pkg", "sub", "deep.so"]]
        [({ name := "pkg", specs := [] }, ["pkg"])] = ∅ ∧
    detect_native_dependencies false [["pkg", "lib.so"]]
        [({ name := "pkg", specs := [] }, ["pkg"])] = {"pkg"} := by decide
